import Mathlib

/-!
Shallow embedding of `RGP/node.py` (EvoDAG evaluation core).

Numeric model: each entry of a numpy float vector is embedded as `Option ℚ`,
where `some q` is a finite value (idealized as an exact rational) and `none`
is a non-finite value (inf / -inf / nan).  Float arithmetic propagates
non-finite operands to non-finite results, and division by zero produces a
non-finite value; both are modelled by the `none`-propagating operations
below.  The `Signal` class itself is not part of the sources (only
`node.py` is), so its elementwise operations are modelled from the spec
(§4.1): elementwise add/multiply/divide, a ternary select, and a finiteness
check.
-/

namespace RGP

/-- One entry of a signal: `some q` = finite value `q`, `none` = non-finite. -/
abbrev V := Option ℚ

/-- Modelled from the spec: Signal elementwise multiplication (non-finite
operands propagate). -/
def vmul : V → V → V
  | some a, some b => some (a * b)
  | _, _ => none

/-- Modelled from the spec: Signal elementwise addition (non-finite operands
propagate). -/
def vadd : V → V → V
  | some a, some b => some (a + b)
  | _, _ => none

/-- Modelled from the spec: Signal elementwise division; division by zero
yields a non-finite entry, and non-finite operands propagate. -/
def vdiv : V → V → V
  | some a, some b => if b = 0 then none else some (a / b)
  | _, _ => none

/-- A signal: a finite-length vector of (possibly non-finite) entries. -/
abbrev Sig := List V

/-- Modelled from the spec: elementwise product of two Signals. -/
def sigMul (a b : Sig) : Sig := List.zipWith vmul a b

/-- Modelled from the spec: elementwise sum of two Signals. -/
def sigAdd (a b : Sig) : Sig := List.zipWith vadd a b

/-- Modelled from the spec: elementwise quotient of two Signals. -/
def sigDiv (a b : Sig) : Sig := List.zipWith vdiv a b

/-- Modelled from the spec: Signal scaled by a finite scalar weight. -/
def sigScale (c : ℚ) (s : Sig) : Sig := s.map (fun v => vmul v (some c))

/-- Sum of the entries of a signal (`.sum()` in numpy). -/
def vsum (l : List V) : V := l.foldl vadd (some 0)

/-- `(f * g).sum()`: the dot product of two signals. -/
def dotV (a b : Sig) : V := vsum (sigMul a b)

/-- Modelled from the spec: `Signal.isfinite`, true iff every entry is
finite. -/
def sigIsFinite (s : Sig) : Bool := s.all Option.isSome

/-- Modelled from the spec: the ternary select `if_func(a, b, c)`: choose
the entry of `b` where `a`'s entry is positive, else the entry of `c`;
non-finite selectors give non-finite entries. -/
def if_func : Sig → Sig → Sig → Sig
  | some x :: as, y :: bs, z :: cs =>
      (if 0 < x then y else z) :: if_func as bs cs
  | none :: as, _ :: bs, _ :: cs => none :: if_func as bs cs
  | _, _, _ => []

/-- A fitted weight: `Mul`, `Div`, the unary transforms and `If` store the
scalar `w[0]`; `Add` (and, as it turns out, `Variable`) store the whole
numpy coefficient vector. -/
inductive Weight
  | scalar : ℚ → Weight
  | vector : List ℚ → Weight
deriving Repr, DecidableEq

/-- numpy broadcasting of `signal * weight`: a scalar (or length-1 vector)
weight scales every entry; a vector weight of the same length as the signal
multiplies elementwise; any other shape raises (modelled as `none`). -/
def scaleW (s : Sig) : Weight → Option Sig
  | Weight.scalar c => some (sigScale c s)
  | Weight.vector l =>
      if l.length = 1 then some (sigScale (l.headD 0) s)
      else if l.length = s.length then
        some (List.zipWith (fun v c => vmul v (some c)) s l)
      else none

/-- The state of a `Variable`/`Function` node instance (`node.py`).
`vr` is the `variable` attribute: the child indices (a single index for
`Variable` and the unary transforms, kept here as a one-element list).
`eval_tr`/`eval_ts` back the `hy`/`hy_test` properties. `nargs` is the
arity; in Python it is a class attribute copied onto the instance by
`Function.tostore`. -/
structure Node where
  vr : List ℕ
  weight : Option Weight := none
  eval_tr : Option Sig := none
  eval_ts : Option Sig := none
  ytr : Option Sig := none
  mask : Option Sig := none
  fitness : Option ℚ := none
  fitness_vs : Option ℚ := none
  position : ℕ := 0
  nargs : ℕ := 2
deriving Repr, DecidableEq

/-- `Variable.tostore` / `Function.tostore`: a fresh instance of the same
class built from `(self.variable, weight=self.weight)`, then given the
original's `position`, `_fitness`, `_fitness_vs` (and, for `Function`,
`nargs`).  The constructor leaves `hy`, `hy_test`, `ytr` and `mask` unset. -/
def tostore (self : Node) : Node :=
  { vr := self.vr, weight := self.weight, position := self.position,
    fitness := self.fitness, fitness_vs := self.fitness_vs,
    nargs := self.nargs }

/-- `Variable.isfinite`:
`self.hy.isfinite() and (self.hy_test is None or self.hy_test.isfinite())`.
Reading `hy` when it was never set raises, modelled as `none`. -/
def isfinite (self : Node) : Option Bool := do
  let hy ← self.eval_tr
  some (sigIsFinite hy &&
        (match self.eval_ts with
         | none => true
         | some t => sigIsFinite t))

/-!
## `compute_weight`

```
def compute_weight(self, r):
    A = np.empty((len(r), len(r)))
    b = np.array(map(lambda f: (f * self._ytr).sum(), r))
    for i in range(len(r)):
        r[i] = r[i] * self._mask
        for j in range(i, len(r)):
            A[i, j] = (r[i] * r[j]).sum()
            A[j, i] = A[i, j]
    if not np.isfinite(A).all() or not np.isfinite(b).all():
        return None
    try:
        coef = np.linalg.solve(A, b)
    except np.linalg.LinAlgError:
        return None
    return coef
```

`b` is computed from the regressors *before* the loop multiplies them by the
mask in place.  The loop is embedded by explicit state passing: the state is
the (mutated) regressor list together with the matrix `A` as a function
`ℕ → ℕ → V` (initialised to an arbitrary value, standing for `np.empty`;
every entry with both indices below `len(r)` is overwritten).  The in-place
mutation of the caller's list `r` is modelled by returning the final list
alongside the result.
-/

/-- The inner loop `for j in range(i, len(r))`: writes
`A[i, j] = A[j, i] = (r[i] * r[j]).sum()` for each `j` in `js`, where `ri`
is the (already masked) current value of `r[i]` and `rs` is the current
regressor list. -/
def innerLoop (ri : Sig) (rs : List Sig) (i : ℕ) :
    (ℕ → ℕ → V) → List ℕ → (ℕ → ℕ → V)
  | A, [] => A
  | A, j :: js =>
      let v := dotV ri (rs.getD j [])
      innerLoop ri rs i
        (fun a b => if (a = i ∧ b = j) ∨ (a = j ∧ b = i) then v else A a b) js

/-- The outer loop `for i in range(len(r))`: masks `r[i]` in place, then
runs the inner loop over `j in range(i, len(r))`. -/
def outerLoop (mask : Sig) :
    List ℕ → List Sig → (ℕ → ℕ → V) → List Sig × (ℕ → ℕ → V)
  | [], rs, A => (rs, A)
  | i :: is, rs, A =>
      let rs := rs.set i (sigMul (rs.getD i []) mask)
      let A := innerLoop (rs.getD i []) rs i A (List.range' i (rs.length - i))
      outerLoop mask is rs A

/-- `np.linalg.solve(A, b)` on an exact k-by-k matrix (entries given as
plain functions, read at indices below k): fails (raises `LinAlgError`)
exactly when the matrix is singular, and otherwise returns the unique
solution, here by Cramer's rule. -/
def solveSys (k : ℕ) (A : ℕ → ℕ → ℚ) (b : ℕ → ℚ) : Option (List ℚ) :=
  let Am : Matrix (Fin k) (Fin k) ℚ := fun i j => A i j
  if Am.det = 0 then none
  else some (List.ofFn fun i => Am.det⁻¹ * Matrix.cramer Am (fun j => b j) i)

/-- The vector `b` of `compute_weight`:
`b = np.array(map(lambda f: (f * self._ytr).sum(), r))`, built from the
regressor list as passed in — the loop has not yet masked it. -/
def bvec (ytr : Sig) (r : List Sig) : List V :=
  r.map (fun f => dotV f ytr)

/-- The state (mutated regressor list, matrix `A`) at the end of
`compute_weight`'s double loop over `range(len(r))`. -/
def gramState (mask : Sig) (r : List Sig) : List Sig × (ℕ → ℕ → V) :=
  outerLoop mask (List.range r.length) r (fun _ _ => some 0)

/-- The Gram matrix `A` as exact rational entries (meaningful once the
finiteness check has passed). -/
def gramQ (mask : Sig) (r : List Sig) : ℕ → ℕ → ℚ :=
  fun i j => ((gramState mask r).2 i j).getD 0

/-- The right-hand side `b` as exact rational entries (meaningful once the
finiteness check has passed). -/
def bQ (ytr : Sig) (r : List Sig) : ℕ → ℚ :=
  fun i => ((bvec ytr r).getD i (some 0)).getD 0

/-- The Gram matrix `A` as a square matrix over `Fin (len r)`. -/
def gramQM (mask : Sig) (r : List Sig) :
    Matrix (Fin r.length) (Fin r.length) ℚ :=
  fun i j => gramQ mask r i j

/-- The right-hand side `b` as a vector over `Fin (len r)`. -/
def bQV (ytr : Sig) (r : List Sig) : Fin r.length → ℚ :=
  fun i => bQ ytr r i

/-- `Variable.compute_weight(r)` with `self._ytr = ytr`, `self._mask = mask`:
returns the optional coefficient vector together with the regressor list as
it stands after the call (the Python code mutates `r` in place). -/
def compute_weight (ytr mask : Sig) (r : List Sig) :
    Option (List ℚ) × List Sig :=
  let k := r.length
  let b := bvec ytr r
  let st := gramState mask r
  let rs := st.1
  let A := st.2
  if decide (∀ i < k, ∀ j < k, (A i j).isSome) && b.all Option.isSome then
    match solveSys k (gramQ mask r) (bQ ytr r) with
    | none => (none, rs)
    | some w => (some w, rs)
  else (none, rs)

/-!
## `eval` for the node variants

Each `eval` method is embedded as a function
`Node → List Node → Option (Bool × Node)`:
`some (true, n)` models `return True` with `n` the updated instance,
`some (false, n)` models `return False`, and `none` models an unhandled
Python exception (index error, operating on an unset `None` Signal, bad
broadcast shape, unpacking error).  To state "this run never calls
`compute_weight`", each `eval` is written generically over the solver it
delegates to (`...G cw`), and the real method instantiates `cw` with
`compute_weight`; apart from this parameter the control flow mirrors the
Python method line by line.
-/

/-- The type of the weight solver `compute_weight` as seen by `eval`. -/
abbrev CW := Sig → Sig → List Sig → Option (List ℚ) × List Sig

/-- The fit step shared by the scalar-weight variants: if `weight` is unset,
call `self.compute_weight([r])` and take `w[0]`; result `some none` models
`return False`, `none` models a crash (unset `ytr`/`mask`, or an empty
coefficient vector). -/
def fitScalar (cw : CW) (self : Node) (r : Sig) : Option (Option Weight) :=
  match self.weight with
  | some w => some (some w)
  | none => do
      let ytr ← self.ytr
      let mask ← self.mask
      match (cw ytr mask [r]).1 with
      | none => some none
      | some [] => none
      | some (w0 :: _) => some (some (Weight.scalar w0))

/-- `Variable.eval`.  Note: on a fresh fit it stores the whole coefficient
vector `w` (`self.weight = w`), not `w[0]`. -/
def evalVariableG (cw : CW) (self : Node) (X : List Node) :
    Option (Bool × Node) := do
  let child ← X.get? (self.vr.headD 0)
  let chy ← child.eval_tr
  let wres ←
    match self.weight with
    | some w => some (some w)
    | none => do
        let ytr ← self.ytr
        let mask ← self.mask
        match (cw ytr mask [chy]).1 with
        | none => some none
        | some w => some (some (Weight.vector w))
  match wres with
  | none => some (false, self)
  | some w => do
      let self := { self with weight := some w }
      let hy ← scaleW chy w
      let self := { self with eval_tr := some hy }
      match child.eval_ts with
      | none => some (true, self)
      | some xtest => do
          let hyt ← scaleW xtest w
          some (true, { self with eval_ts := some hyt })

def evalVariable : Node → List Node → Option (Bool × Node) :=
  evalVariableG compute_weight

/-- `Mul.cumprod`: left fold of elementwise products; raises on an empty
list. -/
def cumprod : List Sig → Option Sig
  | [] => none
  | a :: xs => some (xs.foldl sigMul a)

/-- `Add.cumsum`: left fold of elementwise sums; raises on an empty list. -/
def cumsum : List Sig → Option Sig
  | [] => none
  | a :: xs => some (xs.foldl sigAdd a)

/-- `Mul.eval`: `X = map(lambda x: X[x], self.variable)`, raw transform is
the cumulative product of the children's `hy`, scalar weight `w[0]`; the
test branch is guarded by the first child's `hy_test`. -/
def evalMulG (cw : CW) (self : Node) (X : List Node) :
    Option (Bool × Node) := do
  let children ← self.vr.mapM (fun i => X.get? i)
  let hys ← children.mapM (fun c => c.eval_tr)
  let r ← cumprod hys
  let wopt ← fitScalar cw self r
  match wopt with
  | none => some (false, self)
  | some w => do
      let self := { self with weight := some w }
      let hy ← scaleW r w
      let self := { self with eval_tr := some hy }
      let c0 ← children.head?
      match c0.eval_ts with
      | none => some (true, self)
      | some _ => do
          let tss ← children.mapM (fun c => c.eval_ts)
          let rt ← cumprod tss
          let hyt ← scaleW rt w
          some (true, { self with eval_ts := some hyt })

def evalMul : Node → List Node → Option (Bool × Node) :=
  evalMulG compute_weight

/-- `Div.eval`: `a, b = X[self.variable[0]], X[self.variable[1]]`, raw
transform `a.hy / b.hy`, scalar weight `w[0]`.  Note: the test branch is
guarded by `X[0].hy_test` — slot 0 of the *whole* node list, not a child
(every other variant rebinds `X` to its children first). -/
def evalDivG (cw : CW) (self : Node) (X : List Node) :
    Option (Bool × Node) := do
  let i0 ← self.vr.get? 0
  let i1 ← self.vr.get? 1
  let a ← X.get? i0
  let b ← X.get? i1
  let ahy ← a.eval_tr
  let bhy ← b.eval_tr
  let r := sigDiv ahy bhy
  let wopt ← fitScalar cw self r
  match wopt with
  | none => some (false, self)
  | some w => do
      let self := { self with weight := some w }
      let hy ← scaleW r w
      let self := { self with eval_tr := some hy }
      let x0 ← X.get? 0
      match x0.eval_ts with
      | none => some (true, self)
      | some _ => do
          let ats ← a.eval_ts
          let bts ← b.eval_ts
          let hyt ← scaleW (sigDiv ats bts) w
          some (true, { self with eval_ts := some hyt })

def evalDiv : Node → List Node → Option (Bool × Node) :=
  evalDivG compute_weight

/-- The nine unary transforms `Fabs`, `Exp`, `Sqrt`, `Sin`, `Cos`, `Ln`,
`Sq`, `Sigmoid` share one `eval` shape, differing only in the Signal
transform applied (`X.hy.fabs()`, `X.hy.exp()`, ...); the transform is the
parameter `op` (the transcendental ones have no exact rational embedding,
and none of the claims depends on their pointwise values). -/
def evalUnaryG (op : Sig → Sig) (cw : CW) (self : Node) (X : List Node) :
    Option (Bool × Node) := do
  let child ← X.get? (self.vr.headD 0)
  let chy ← child.eval_tr
  let r := op chy
  let wopt ← fitScalar cw self r
  match wopt with
  | none => some (false, self)
  | some w => do
      let self := { self with weight := some w }
      let hy ← scaleW r w
      let self := { self with eval_tr := some hy }
      match child.eval_ts with
      | none => some (true, self)
      | some ts => do
          let hyt ← scaleW (op ts) w
          some (true, { self with eval_ts := some hyt })

def evalUnary (op : Sig → Sig) : Node → List Node → Option (Bool × Node) :=
  evalUnaryG op compute_weight

/-- `If.eval`: `a, b, c = X` after rebinding `X` to the children (exactly
three, or the unpacking raises); raw transform `a.hy.if_func(b.hy, c.hy)`,
scalar weight `w[0]`; the test branch is guarded by `a.hy_test` (the first
child). -/
def evalIfG (cw : CW) (self : Node) (X : List Node) :
    Option (Bool × Node) := do
  let children ← self.vr.mapM (fun i => X.get? i)
  match children with
  | [a, b, c] => do
      let ahy ← a.eval_tr
      let bhy ← b.eval_tr
      let chy ← c.eval_tr
      let r := if_func ahy bhy chy
      let wopt ← fitScalar cw self r
      match wopt with
      | none => some (false, self)
      | some w => do
          let self := { self with weight := some w }
          let hy ← scaleW r w
          let self := { self with eval_tr := some hy }
          match a.eval_ts with
          | none => some (true, self)
          | some ats => do
              let bts ← b.eval_ts
              let cts ← c.eval_ts
              let hyt ← scaleW (if_func ats bts cts) w
              some (true, { self with eval_ts := some hyt })
  | _ => none

def evalIf : Node → List Node → Option (Bool × Node) :=
  evalIfG compute_weight

/-- `Add.eval`: each child is weighted by its own coefficient
(`zip(X, self.weight)` — the weight must be a vector or the zip raises),
and the weighted signals are summed; a fresh fit passes all the children's
`hy` to the solver and stores the whole vector. -/
def evalAddG (cw : CW) (self : Node) (X : List Node) :
    Option (Bool × Node) := do
  let children ← self.vr.mapM (fun i => X.get? i)
  let wopt ←
    match self.weight with
    | some w => some (some w)
    | none => do
        let ytr ← self.ytr
        let mask ← self.mask
        let hys ← children.mapM (fun c => c.eval_tr)
        match (cw ytr mask hys).1 with
        | none => some none
        | some ws => some (some (Weight.vector ws))
  match wopt with
  | none => some (false, self)
  | some w =>
      match w with
      | Weight.scalar _ => none
      | Weight.vector ws => do
          let terms ← (children.zip ws).mapM (fun p => do
              let h ← p.1.eval_tr
              some (sigScale p.2 h))
          let hy ← cumsum terms
          let self := { self with weight := some w, eval_tr := some hy }
          let c0 ← children.head?
          match c0.eval_ts with
          | none => some (true, self)
          | some _ => do
              let terms ← (children.zip ws).mapM (fun p => do
                  let t ← p.1.eval_ts
                  some (sigScale p.2 t))
              let hyt ← cumsum terms
              some (true, { self with eval_ts := some hyt })

def evalAdd : Node → List Node → Option (Bool × Node) :=
  evalAddG compute_weight

/-! ## Basic lemmas about the signal operations -/

lemma vmul_comm (a b : V) : vmul a b = vmul b a := by
  cases a <;> cases b <;> simp [vmul, mul_comm]

lemma vmul_one (v : V) : vmul v (some 1) = v := by
  cases v <;> simp [vmul]

lemma sigMul_comm (a b : Sig) : sigMul a b = sigMul b a :=
  List.zipWith_comm_of_comm vmul vmul_comm a b

lemma dotV_comm (a b : Sig) : dotV a b = dotV b a := by
  unfold dotV; rw [sigMul_comm]

lemma sigScale_one (s : Sig) : sigScale 1 s = s := by
  simp [sigScale, vmul_one]

lemma scaleW_one_vector (s : Sig) : scaleW s (Weight.vector [1]) = some s := by
  simp [scaleW, sigScale_one]

/-- For a 0/1-valued mask entry, masking one factor of a product is the same
as masking both factors. -/
lemma vmul_mask (c : V) (hc : c = some 0 ∨ c = some 1) (a b : V) :
    vmul (vmul a c) (vmul b c) = vmul (vmul a c) b := by
  rcases hc with h | h <;> subst h <;> cases a <;> cases b <;>
    simp [vmul]

/-- For a 0/1-valued mask, masking one side of an elementwise product is the
same as masking both sides. -/
lemma sigMul_mask (m : Sig) (h01 : ∀ v ∈ m, v = some 0 ∨ v = some 1) :
    ∀ (x y : Sig), sigMul (sigMul x m) (sigMul y m) = sigMul (sigMul x m) y
  | [], _ => by simp [sigMul]
  | _ :: _, [] => by simp [sigMul]
  | a :: x, b :: y => by
      match m, h01 with
      | [], _ => simp [sigMul]
      | c :: m, h01 =>
          have hc := h01 c (by simp)
          have ih := sigMul_mask m (fun v hv => h01 v (by simp [hv])) x y
          simpa [sigMul, vmul_mask c hc a b] using ih

/-- For a 0/1-valued mask, the dot product of two masked signals equals the
dot product of the first masked signal with the second raw signal. -/
lemma dotV_mask (m : Sig) (h01 : ∀ v ∈ m, v = some 0 ∨ v = some 1)
    (x y : Sig) : dotV (sigMul x m) (sigMul y m) = dotV (sigMul x m) y := by
  unfold dotV; rw [sigMul_mask m h01]

lemma getD_set_self {α : Type} (l : List α) (i : ℕ) (x d : α)
    (h : i < l.length) : (l.set i x).getD i d = x := by
  simp [List.getD_eq_getElem?_getD, List.getElem?_set, h]

lemma getD_set_ne {α : Type} (l : List α) (i a : ℕ) (x d : α)
    (h : i ≠ a) : (l.set i x).getD a d = l.getD a d := by
  simp [List.getD_eq_getElem?_getD, List.getElem?_set, h]

/-! ## Characterization of the `compute_weight` loops -/

/-- What the inner loop writes: for each `j ∈ js` it sets both `A[i, j]` and
`A[j, i]` to `(r[i] * r[j]).sum()`; positions it does not write keep their
previous value.  (Every write for a fixed `i` uses the same `ri` and the
unchanged list `rs`, so overlapping writes agree and no distinctness
assumption on `js` is needed.) -/
lemma innerLoop_apply (ri : Sig) (rs : List Sig) (i : ℕ) :
    ∀ (js : List ℕ) (A : ℕ → ℕ → V) (a b : ℕ),
      innerLoop ri rs i A js a b =
        if a = i ∧ b ∈ js then dotV ri (rs.getD b [])
        else if b = i ∧ a ∈ js then dotV ri (rs.getD a [])
        else A a b
  | [], A, a, b => by simp [innerLoop]
  | j :: js, A, a, b => by
      rw [innerLoop, innerLoop_apply ri rs i js]
      by_cases hai : a = i <;> by_cases hbi : b = i <;>
        by_cases haj : a = j <;> by_cases hbj : b = j <;>
        by_cases hbjs : b ∈ js <;> by_cases hajs : a ∈ js <;>
        simp_all [List.mem_cons]

/-- Full characterization of the mask-and-Gram loop of `compute_weight`,
running over the indices `i, i+1, ..., rs.length - 1`:
the final regressor list has every entry from position `i` on multiplied by
the mask, and the final matrix holds, at `(a, b)` with both indices in
range, the dot product written at outer step `min a b` — at that moment
`r[min a b]` has just been masked while `r[max a b]` (when different) has
not yet been, so diagonal entries see the mask twice and off-diagonal
entries see it once.  Unwritten positions keep the initial value `A a b`. -/
lemma outerLoop_spec (mask : Sig) :
    ∀ (n i : ℕ) (rs : List Sig) (A : ℕ → ℕ → V), i + n = rs.length →
      (outerLoop mask (List.range' i n) rs A).1.length = rs.length ∧
      (∀ a, (outerLoop mask (List.range' i n) rs A).1.getD a [] =
         if i ≤ a ∧ a < rs.length then sigMul (rs.getD a []) mask
         else rs.getD a []) ∧
      (∀ a b, (outerLoop mask (List.range' i n) rs A).2 a b =
         if i ≤ a ∧ a < rs.length ∧ i ≤ b ∧ b < rs.length then
           (if a = b then
              dotV (sigMul (rs.getD a []) mask) (sigMul (rs.getD a []) mask)
            else
              dotV (sigMul (rs.getD (min a b) []) mask)
                   (rs.getD (max a b) []))
         else A a b) := by
  intro n
  induction n with
  | zero =>
      intro i rs A h
      refine ⟨rfl, ?_, ?_⟩
      · intro a
        rw [if_neg (by omega)]
        rfl
      · intro a b
        rw [if_neg (by omega)]
        rfl
  | succ n ih =>
      intro i rs A h
      have hi : i < rs.length := by omega
      rw [show List.range' i (n + 1) = i :: List.range' (i + 1) n from
            List.range'_succ i n 1]
      simp only [outerLoop, List.length_set]
      have hset_self :
          (rs.set i (sigMul (rs.getD i []) mask)).getD i [] =
            sigMul (rs.getD i []) mask :=
        getD_set_self rs i _ [] hi
      have hset_ne : ∀ a, a ≠ i →
          (rs.set i (sigMul (rs.getD i []) mask)).getD a [] = rs.getD a [] :=
        fun a ha => getD_set_ne rs i a _ [] (fun he => ha he.symm)
      obtain ⟨ih1, ih2, ih3⟩ :=
        ih (i + 1) (rs.set i (sigMul (rs.getD i []) mask)) _
          (by simp [List.length_set]; omega)
      refine ⟨by rw [ih1, List.length_set], ?_, ?_⟩
      · intro a
        rw [ih2 a, List.length_set]
        by_cases hae : a = i
        · subst hae
          rw [if_neg (by omega), if_pos ⟨le_refl a, hi⟩, hset_self]
        · rw [hset_ne a hae]
          by_cases hcond : i ≤ a ∧ a < rs.length
          · rw [if_pos (by omega), if_pos hcond]
          · rw [if_neg (by omega), if_neg hcond]
      · intro a b
        rw [ih3 a b, List.length_set,
            innerLoop_apply _ _ _ _ _ a b, hset_self]
        have hmem : ∀ x, x ∈ List.range' i (rs.length - i) ↔
            (i ≤ x ∧ x < rs.length) := by
          intro x
          rw [List.mem_range'_1]
          omega
        by_cases hcond : i ≤ a ∧ a < rs.length ∧ i ≤ b ∧ b < rs.length
        · obtain ⟨h1, h2, h3, h4⟩ := id hcond
          by_cases hI : i + 1 ≤ a ∧ a < rs.length ∧ i + 1 ≤ b ∧ b < rs.length
          · rw [if_pos hI, if_pos hcond]
            obtain ⟨g1, _, g3, _⟩ := id hI
            by_cases hab : a = b
            · rw [if_pos hab, if_pos hab, hset_ne a (by omega)]
            · rw [if_neg hab, if_neg hab, hset_ne (min a b) (by omega),
                  hset_ne (max a b) (by omega)]
          · rw [if_neg hI, if_pos hcond]
            by_cases hai : a = i
            · have hc1 : a = i ∧ b ∈ List.range' i (rs.length - i) :=
                ⟨hai, (hmem b).mpr ⟨h3, h4⟩⟩
              rw [if_pos hc1]
              by_cases hab : a = b
              · rw [if_pos hab,
                    show (rs.set i (sigMul (rs.getD i []) mask)).getD b [] =
                        sigMul (rs.getD i []) mask from by
                      rw [show b = i from by omega]; exact hset_self,
                    hai]
              · rw [if_neg hab, hset_ne b (by omega),
                    show min a b = a from by omega,
                    show max a b = b from by omega, hai]
            · have hbi : b = i := by omega
              have hc1 : ¬(a = i ∧ b ∈ List.range' i (rs.length - i)) :=
                fun hx => hai hx.1
              have hc2 : b = i ∧ a ∈ List.range' i (rs.length - i) :=
                ⟨hbi, (hmem a).mpr ⟨h1, h2⟩⟩
              have hab : ¬(a = b) := by omega
              rw [if_neg hc1, if_pos hc2, hset_ne a hai, if_neg hab,
                  show min a b = b from by omega,
                  show max a b = a from by omega, hbi]
        · rw [if_neg hcond, if_neg (by omega)]
          rw [if_neg (show ¬(a = i ∧ b ∈ List.range' i (rs.length - i)) from by
                intro hx
                exact hcond ⟨hx.1 ▸ le_refl i, hx.1 ▸ hi, ((hmem b).mp hx.2)⟩)]
          rw [if_neg (show ¬(b = i ∧ a ∈ List.range' i (rs.length - i)) from by
                intro hx
                exact hcond ⟨((hmem a).mp hx.2).1, ((hmem a).mp hx.2).2,
                             hx.1 ▸ le_refl i, hx.1 ▸ hi⟩)]

/-- The final regressor list of the loop: every entry multiplied (once) by
the mask. -/
lemma gramState_fst (mask : Sig) (r : List Sig) :
    (gramState mask r).1 = r.map (fun f => sigMul f mask) := by
  obtain ⟨hlen, hget, -⟩ :=
    outerLoop_spec mask r.length 0 r (fun _ _ => some 0) (by omega)
  have hh : gramState mask r =
      outerLoop mask (List.range' 0 r.length) r (fun _ _ => some 0) := by
    rw [gramState, List.range_eq_range']
  rw [hh]
  apply List.ext_getElem
  · rw [hlen, List.length_map]
  · intro n h₁ h₂
    have hn : n < r.length := by simpa using h₂
    rw [← List.getD_eq_getElem _ [] h₁, hget n,
        if_pos ⟨Nat.zero_le n, hn⟩, List.getElem_map,
        List.getD_eq_getElem _ [] hn]

/-- The final matrix of the loop, at in-range positions. -/
lemma gramState_snd (mask : Sig) (r : List Sig) (a b : ℕ)
    (ha : a < r.length) (hb : b < r.length) :
    (gramState mask r).2 a b =
      if a = b then
        dotV (sigMul (r.getD a []) mask) (sigMul (r.getD a []) mask)
      else
        dotV (sigMul (r.getD (min a b) []) mask) (r.getD (max a b) []) := by
  obtain ⟨-, -, hA⟩ :=
    outerLoop_spec mask r.length 0 r (fun _ _ => some 0) (by omega)
  have hh : gramState mask r =
      outerLoop mask (List.range' 0 r.length) r (fun _ _ => some 0) := by
    rw [gramState, List.range_eq_range']
  rw [hh, hA a b, if_pos ⟨Nat.zero_le a, ha, Nat.zero_le b, hb⟩]

/-- `compute_weight` always hands back the masked regressor list, whether
it succeeds or fails. -/
lemma compute_weight_snd (ytr mask : Sig) (r : List Sig) :
    (compute_weight ytr mask r).2 = r.map (fun f => sigMul f mask) := by
  rw [← gramState_fst mask r]
  simp only [compute_weight]
  split
  · split <;> rfl
  · rfl

/-- When `compute_weight` succeeds, the returned coefficient list has one
entry per regressor and solves the (code's) linear system `A·w = b`. -/
lemma compute_weight_sound (ytr mask : Sig) (r : List Sig) (w : List ℚ)
    (hw : (compute_weight ytr mask r).1 = some w) :
    w.length = r.length ∧
    (gramQM mask r).mulVec (fun i => w.getD i 0) = bQV ytr r := by
  simp only [compute_weight] at hw
  split at hw
  · split at hw
    · simp at hw
    · rename_i w' heq
      simp only [Prod.fst] at hw
      obtain rfl : w' = w := by simpa using hw
      simp only [solveSys] at heq
      split at heq
      · simp at heq
      · rename_i hd
        obtain rfl := (Option.some.inj heq).symm
        have hM : (fun i j : Fin r.length => gramQ mask r i j) =
            gramQM mask r := rfl
        have hb : (fun j : Fin r.length => bQ ytr r j) = bQV ytr r := rfl
        rw [hM] at hd
        rw [hM, hb]
        constructor
        · simp [List.length_ofFn]
        · have hfn : (fun i : Fin r.length =>
              (List.ofFn (fun i => (gramQM mask r).det⁻¹ *
                Matrix.cramer (gramQM mask r) (bQV ytr r) i)).getD i 0) =
              ((gramQM mask r).det⁻¹ •
                Matrix.cramer (gramQM mask r) (bQV ytr r) ·) := by
            funext i
            rw [List.getD_eq_getElem _ _ (by simp [List.length_ofFn, i.isLt]),
                List.getElem_ofFn]
            simp
          rw [hfn]
          have hsm : ((gramQM mask r).det⁻¹ •
                Matrix.cramer (gramQM mask r) (bQV ytr r) ·) =
              (gramQM mask r).det⁻¹ •
                ⇑(Matrix.cramer (gramQM mask r)) (bQV ytr r) := by
            funext i
            simp
          rw [hsm, Matrix.mulVec_smul, Matrix.mulVec_cramer, smul_smul,
              inv_mul_cancel₀ hd, one_smul]
  · simp at hw

/-!
## Claim theorems
-/

/-- C7: for every node, tostore() returns a new instance of the same
variant that carries only the child references (variable), weight,
position, fitness and fitness_vs of the original (plus nargs for Function
variants), and in which hy, hy_test, the training target ytr and the mask
are all unset. -/
theorem C7_tostore_fields (n : Node) :
    (tostore n).vr = n.vr ∧ (tostore n).weight = n.weight ∧
    (tostore n).position = n.position ∧ (tostore n).fitness = n.fitness ∧
    (tostore n).fitness_vs = n.fitness_vs ∧ (tostore n).nargs = n.nargs ∧
    (tostore n).eval_tr = none ∧ (tostore n).eval_ts = none ∧
    (tostore n).ytr = none ∧ (tostore n).mask = none :=
  ⟨rfl, rfl, rfl, rfl, rfl, rfl, rfl, rfl, rfl, rfl⟩

/-- C9: for every successfully evaluated node (eval_tr holds a Signal),
isfinite() returns true iff every entry of hy is finite and, when hy_test
is present, every entry of hy_test is finite; when hy_test is absent only
hy is checked. -/
theorem C9_isfinite_iff (n : Node) (s : Sig) (h : n.eval_tr = some s) :
    (isfinite n = some true ↔
      (∀ v ∈ s, v.isSome = true) ∧
      (∀ t, n.eval_ts = some t → ∀ v ∈ t, v.isSome = true)) := by
  unfold isfinite
  rw [h]
  cases hts : n.eval_ts with
  | none => simp [hts, sigIsFinite, List.all_eq_true]
  | some t => simp [hts, sigIsFinite, List.all_eq_true]

/-- C9 witness: a concrete evaluated node with finite hy and no test
split. -/
theorem C9_isfinite_iff_witness :
    ({ vr := [0], eval_tr := some [some 1] } : Node).eval_tr =
        some [some 1] ∧
    (isfinite { vr := [0], eval_tr := some [some 1] } = some true ↔
      (∀ v ∈ ([some 1] : Sig), v.isSome = true) ∧
      (∀ t, ({ vr := [0], eval_tr := some [some 1] } : Node).eval_ts =
          some t → ∀ v ∈ t, v.isSome = true)) :=
  ⟨rfl, C9_isfinite_iff { vr := [0], eval_tr := some [some 1] } [some 1] rfl⟩

/-- C10: compute_weight hands back to its caller the regressor list with
every entry replaced by its masked version r[i] ⊙ mask, on every call —
including calls that end in failure (the Python code mutates the caller's
list in place before any failure can occur). -/
theorem C10_compute_weight_masks_callers_list (ytr mask : Sig)
    (r : List Sig) :
    (compute_weight ytr mask r).2 = r.map (fun f => sigMul f mask) :=
  compute_weight_snd ytr mask r

/-- C5: compute_weight returns no solution exactly when the Gram matrix A
or the vector b contains a non-finite entry, or the linear system is
singular; in every other case it returns the vector w of length k solving
A·w = b. -/
theorem C5_compute_weight_failure_characterization (ytr mask : Sig)
    (r : List Sig) :
    ((compute_weight ytr mask r).1 = none ↔
      ¬(∀ i < r.length, ∀ j < r.length,
          ((gramState mask r).2 i j).isSome = true) ∨
      ¬(∀ x ∈ bvec ytr r, x.isSome = true) ∨
      (gramQM mask r).det = 0) ∧
    (∀ w, (compute_weight ytr mask r).1 = some w →
      w.length = r.length ∧
      (gramQM mask r).mulVec (fun i => w.getD i 0) = bQV ytr r) := by
  refine ⟨?_, fun w hw => compute_weight_sound ytr mask r w hw⟩
  simp only [compute_weight]
  split
  · rename_i hcond
    rw [Bool.and_eq_true, decide_eq_true_eq, List.all_eq_true] at hcond
    split
    · rename_i heq
      simp only [solveSys] at heq
      split at heq
      · rename_i hdet
        simp only [Prod.fst]
        exact ⟨fun _ => Or.inr (Or.inr hdet), fun _ => trivial⟩
      · simp at heq
    · rename_i w' heq
      simp only [solveSys] at heq
      split at heq
      · simp at heq
      · rename_i hdet
        simp only [Prod.fst]
        constructor
        · intro hx; simp at hx
        · intro hx
          rcases hx with hx | hx | hx
          · exact absurd hcond.1 hx
          · exact absurd hcond.2 hx
          · exact absurd hx hdet
  · rename_i hcond
    rw [Bool.and_eq_true, decide_eq_true_eq, List.all_eq_true] at hcond
    simp only [Prod.fst]
    constructor
    · intro _
      by_cases hA : ∀ i < r.length, ∀ j < r.length,
          ((gramState mask r).2 i j).isSome = true
      · exact Or.inr (Or.inl (fun hb => hcond ⟨hA, hb⟩))
      · exact Or.inl hA
    · intro _; trivial

/-- C5 witness: a concrete success, with the solution solving the code's
system. -/
theorem C5_compute_weight_failure_characterization_witness :
    (compute_weight [some 1, some 1] [some 1, some 0]
        [[some 1, some 1]]).1 = some [2] ∧
    ([2] : List ℚ).length = ([[some 1, some 1]] : List Sig).length ∧
    (gramQM [some 1, some 0] [[some 1, some 1]]).mulVec
        (fun i => ([2] : List ℚ).getD i 0) =
      bQV [some 1, some 1] [[some 1, some 1]] :=
  ⟨by with_unfolding_all decide,
   (C5_compute_weight_failure_characterization [some 1, some 1]
       [some 1, some 0] [[some 1, some 1]]).2 [2]
     (by with_unfolding_all decide)⟩

/-- C1 counterexample: with one regressor r = [1, 1], target ytr = [1, 1]
and mask m = [1, 0], the code returns w = [2]; but under the claimed system
the masked Gram entry is dot(m⊙r, m⊙r) = 1 and the claimed masked
right-hand side is dot(m⊙r, ytr) = 1, so the claimed solution would be
w₀ = 1: the returned w₀ = 2 does not satisfy A·w = b with b built from the
masked regressor (1 * 2 ≠ 1).  The code builds b from the raw regressor —
dot(r, ytr) = 2 — before the loop masks the list. -/
theorem C1_counterexample_b_uses_raw_regressors :
    (compute_weight [some 1, some 1] [some 1, some 0]
        [[some 1, some 1]]).1 = some [2] ∧
    dotV (sigMul [some 1, some 1] [some 1, some 0])
        (sigMul [some 1, some 1] [some 1, some 0]) = some 1 ∧
    dotV (sigMul [some 1, some 1] [some 1, some 0]) [some 1, some 1] =
        some 1 ∧
    ¬((1 : ℚ) * 2 = 1) := by
  with_unfolding_all decide

/-- C1 amended: in compute_weight the validity mask is applied to every
regressor before the Gram products are taken, so that for every list of k
regressor signals, target ytr and 0/1-valued mask m, A[i,j] =
dot(m⊙r_i, m⊙r_j); but b is built from the raw regressors — b[i] =
dot(r_i, ytr) — because the line computing b runs before the loop masks
the list, and the returned solution solves A·w = b for that raw-regressor
b. -/
theorem C1_amended_masked_gram_raw_b (ytr mask : Sig) (r : List Sig)
    (h01 : ∀ v ∈ mask, v = some 0 ∨ v = some 1) (w : List ℚ)
    (hw : (compute_weight ytr mask r).1 = some w) :
    (∀ i j : Fin r.length, (gramState mask r).2 i j =
        dotV (sigMul (r.getD i []) mask) (sigMul (r.getD j []) mask)) ∧
    w.length = r.length ∧
    Matrix.mulVec
      (fun i j : Fin r.length =>
        (dotV (sigMul (r.getD i []) mask)
              (sigMul (r.getD j []) mask)).getD 0)
      (fun i => w.getD i 0) = bQV ytr r := by
  have hAspec : ∀ i j : Fin r.length, (gramState mask r).2 i j =
      dotV (sigMul (r.getD i []) mask) (sigMul (r.getD j []) mask) := by
    intro i j
    rw [gramState_snd mask r i j i.isLt j.isLt]
    by_cases hij : (i : ℕ) = (j : ℕ)
    · rw [if_pos hij, hij]
    · rw [if_neg hij]
      rcases le_total (i : ℕ) (j : ℕ) with hle | hle
      · rw [min_eq_left hle, max_eq_right hle, ← dotV_mask mask h01]
      · rw [min_eq_right hle, max_eq_left hle,
            ← dotV_mask mask h01 (r.getD (j : ℕ) []) (r.getD (i : ℕ) [])]
        exact dotV_comm _ _
  obtain ⟨hlen, hmul⟩ := compute_weight_sound ytr mask r w hw
  refine ⟨hAspec, hlen, ?_⟩
  have hgram : (fun i j : Fin r.length =>
      (dotV (sigMul (r.getD i []) mask)
            (sigMul (r.getD j []) mask)).getD 0) = gramQM mask r := by
    funext i j
    simp only [gramQM, gramQ]
    rw [hAspec i j]
  rw [hgram]
  exact hmul

/-- C1 amended witness: a 0/1 mask and a successful solve, instantiating
the amended statement. -/
theorem C1_amended_masked_gram_raw_b_witness :
    ((∀ v ∈ ([some 1, some 0] : Sig), v = some 0 ∨ v = some 1) ∧
     (compute_weight [some 1, some 1] [some 1, some 0]
        [[some 1, some 1]]).1 = some [2]) ∧
    ((∀ i j : Fin ([[some 1, some 1]] : List Sig).length,
        (gramState [some 1, some 0] [[some 1, some 1]]).2 i j =
          dotV (sigMul (([[some 1, some 1]] : List Sig).getD i [])
                  [some 1, some 0])
               (sigMul (([[some 1, some 1]] : List Sig).getD j [])
                  [some 1, some 0])) ∧
     ([2] : List ℚ).length = ([[some 1, some 1]] : List Sig).length ∧
     Matrix.mulVec
       (fun i j : Fin ([[some 1, some 1]] : List Sig).length =>
         (dotV (sigMul (([[some 1, some 1]] : List Sig).getD i [])
                  [some 1, some 0])
               (sigMul (([[some 1, some 1]] : List Sig).getD j [])
                  [some 1, some 0])).getD 0)
       (fun i => ([2] : List ℚ).getD i 0) =
       bQV [some 1, some 1] [[some 1, some 1]]) :=
  ⟨⟨by with_unfolding_all decide, by with_unfolding_all decide⟩,
   C1_amended_masked_gram_raw_b [some 1, some 1] [some 1, some 0]
     [[some 1, some 1]] (by with_unfolding_all decide) [2]
     (by with_unfolding_all decide)⟩

/-- C2: the spec (and every other variant) guards the test-split branch on
the node's children, but Div.eval tests X[0].hy_test — slot 0 of the whole
node list, which need not be one of its children.  Here the Div node's
children (slots 1 and 2) both expose test-split Signals, yet eval succeeds
leaving hy_test unset, because slot 0 has no test Signal. -/
theorem C2_div_test_guard_ignores_children :
    evalDiv { vr := [1, 2], weight := some (Weight.scalar 3) }
      [{ vr := [], eval_tr := some [some 1] },
       { vr := [], eval_tr := some [some 4], eval_ts := some [some 4] },
       { vr := [], eval_tr := some [some 2], eval_ts := some [some 2] }] =
      some (true, { vr := [1, 2], weight := some (Weight.scalar 3),
                    eval_tr := some [some 6] }) ∧
    (([{ vr := [], eval_tr := some [some 1] },
       { vr := [], eval_tr := some [some 4], eval_ts := some [some 4] },
       { vr := [], eval_tr := some [some 2], eval_ts := some [some 2] }] :
        List Node).getD 1 { vr := [] }).eval_ts.isSome = true ∧
    (([{ vr := [], eval_tr := some [some 1] },
       { vr := [], eval_tr := some [some 4], eval_ts := some [some 4] },
       { vr := [], eval_tr := some [some 2], eval_ts := some [some 2] }] :
        List Node).getD 2 { vr := [] }).eval_ts.isSome = true ∧
    ({ vr := [1, 2], weight := some (Weight.scalar 3),
       eval_tr := some [some 6] } : Node).eval_ts = none := by
  with_unfolding_all decide

/-- With a preset weight, the scalar fit step returns it untouched and
never consults the solver. -/
lemma fitScalar_preset (cw : CW) (nd : Node) (r : Sig) (w : Weight)
    (hw : nd.weight = some w) : fitScalar cw nd r = some (some w) := by
  simp [fitScalar, hw]

/-- With a preset weight, `Variable.eval` reduces to the pure scaling
chain: the solver parameter does not occur. -/
lemma evalVariableG_preset (cw : CW) (nd : Node) (X : List Node)
    (w : Weight) (hw : nd.weight = some w) :
    evalVariableG cw nd X =
      (X.get? (nd.vr.headD 0)).bind fun child =>
        child.eval_tr.bind fun chy =>
          (scaleW chy w).bind fun hy =>
            match child.eval_ts with
            | none =>
                some (true, { nd with weight := some w, eval_tr := some hy })
            | some xtest =>
                (scaleW xtest w).bind fun hyt =>
                  some (true, { nd with weight := some w, eval_tr := some hy, eval_ts := some hyt }) := by
  simp only [evalVariableG, hw]
  rfl

/-- With a preset weight, a unary transform's eval reduces to the pure
transform-and-scale chain: the solver parameter does not occur. -/
lemma evalUnaryG_preset (op : Sig → Sig) (cw : CW) (nd : Node)
    (X : List Node) (w : Weight) (hw : nd.weight = some w) :
    evalUnaryG op cw nd X =
      (X.get? (nd.vr.headD 0)).bind fun child =>
        child.eval_tr.bind fun chy =>
          (scaleW (op chy) w).bind fun hy =>
            match child.eval_ts with
            | none =>
                some (true, { nd with weight := some w, eval_tr := some hy })
            | some ts =>
                (scaleW (op ts) w).bind fun hyt =>
                  some (true, { nd with weight := some w, eval_tr := some hy, eval_ts := some hyt }) := by
  simp only [evalUnaryG, fitScalar_preset cw nd _ w hw]
  rfl

/-- C3: for every node whose weight field is already set, eval makes no
call to compute_weight (the result does not depend on the solver at all)
and leaves the weight unchanged; consequently, re-evaluating a node
restored from its snapshot (tostore, which carries the weight) against the
same children's Signals reproduces the original hy and again triggers no
weight solve.  Stated for Variable.eval and, generically in the transform
`op`, for the nine unary transforms (Sin etc.). -/
theorem C3_preset_weight_no_solve (self : Node) (X : List Node) (w : Weight)
    (hw : self.weight = some w) :
    (∀ cw cw', evalVariableG cw self X = evalVariableG cw' self X) ∧
    (∀ op cw cw', evalUnaryG op cw self X = evalUnaryG op cw' self X) ∧
    (∀ b n', evalVariable self X = some (b, n') →
       b = true ∧ n'.weight = some w) ∧
    (∀ op b n', evalUnary op self X = some (b, n') →
       b = true ∧ n'.weight = some w) ∧
    (∀ n₁, evalVariable self X = some (true, n₁) →
       ∃ n₂, evalVariable (tostore n₁) X = some (true, n₂) ∧
         n₂.eval_tr = n₁.eval_tr ∧
         ∀ cw, evalVariableG cw (tostore n₁) X =
           evalVariable (tostore n₁) X) := by
  refine ⟨?_, ?_, ?_, ?_, ?_⟩
  · intro cw cw'
    rw [evalVariableG_preset cw self X w hw,
        evalVariableG_preset cw' self X w hw]
  · intro op cw cw'
    rw [evalUnaryG_preset op cw self X w hw,
        evalUnaryG_preset op cw' self X w hw]
  · intro b n' h
    have hEval : evalVariable self X = _ :=
      evalVariableG_preset compute_weight self X w hw
    rw [hEval, Option.bind_eq_some] at h
    obtain ⟨child, hchild, h⟩ := h
    rw [Option.bind_eq_some] at h
    obtain ⟨chy, hchy, h⟩ := h
    rw [Option.bind_eq_some] at h
    obtain ⟨hy, hhy, h⟩ := h
    cases hts : child.eval_ts with
    | none =>
        rw [hts] at h
        have hp := Option.some.inj h
        rw [Prod.mk.injEq] at hp
        exact ⟨hp.1.symm, by rw [← hp.2]⟩
    | some xtest =>
        rw [hts, Option.bind_eq_some] at h
        obtain ⟨hyt, hhyt, h⟩ := h
        have hp := Option.some.inj h
        rw [Prod.mk.injEq] at hp
        exact ⟨hp.1.symm, by rw [← hp.2]⟩
  · intro op b n' h
    have hEval : evalUnary op self X = _ :=
      evalUnaryG_preset op compute_weight self X w hw
    rw [hEval, Option.bind_eq_some] at h
    obtain ⟨child, hchild, h⟩ := h
    rw [Option.bind_eq_some] at h
    obtain ⟨chy, hchy, h⟩ := h
    rw [Option.bind_eq_some] at h
    obtain ⟨hy, hhy, h⟩ := h
    cases hts : child.eval_ts with
    | none =>
        rw [hts] at h
        have hp := Option.some.inj h
        rw [Prod.mk.injEq] at hp
        exact ⟨hp.1.symm, by rw [← hp.2]⟩
    | some ts =>
        rw [hts, Option.bind_eq_some] at h
        obtain ⟨hyt, hhyt, h⟩ := h
        have hp := Option.some.inj h
        rw [Prod.mk.injEq] at hp
        exact ⟨hp.1.symm, by rw [← hp.2]⟩
  · intro n₁ h
    have hEval : evalVariable self X = _ :=
      evalVariableG_preset compute_weight self X w hw
    rw [hEval, Option.bind_eq_some] at h
    obtain ⟨child, hchild, h⟩ := h
    rw [Option.bind_eq_some] at h
    obtain ⟨chy, hchy, h⟩ := h
    rw [Option.bind_eq_some] at h
    obtain ⟨hy, hhy, h⟩ := h
    cases hts : child.eval_ts with
    | none =>
        rw [hts] at h
        have hp := Option.some.inj h
        rw [Prod.mk.injEq] at hp
        obtain ⟨-, hn⟩ := hp
        subst hn
        refine ⟨{ vr := self.vr, weight := some w, eval_tr := some hy, position := self.position, fitness := self.fitness, fitness_vs := self.fitness_vs, nargs := self.nargs }, ?_, rfl, ?_⟩
        · show evalVariableG compute_weight (tostore { self with weight := some w, eval_tr := some hy }) X = _
          rw [evalVariableG_preset compute_weight (tostore { self with weight := some w, eval_tr := some hy }) X w rfl]
          show (X.get? (self.vr.headD 0)).bind _ = _
          rw [hchild, Option.some_bind, hchy, Option.some_bind, hhy,
              Option.some_bind, hts]
          rfl
        · intro cw
          exact (evalVariableG_preset cw (tostore { self with weight := some w, eval_tr := some hy }) X w rfl).trans
            (evalVariableG_preset compute_weight (tostore { self with weight := some w, eval_tr := some hy }) X w rfl).symm
    | some xtest =>
        rw [hts, Option.bind_eq_some] at h
        obtain ⟨hyt, hhyt, h⟩ := h
        have hp := Option.some.inj h
        rw [Prod.mk.injEq] at hp
        obtain ⟨-, hn⟩ := hp
        subst hn
        refine ⟨{ vr := self.vr, weight := some w, eval_tr := some hy, eval_ts := some hyt, position := self.position, fitness := self.fitness, fitness_vs := self.fitness_vs, nargs := self.nargs }, ?_, rfl, ?_⟩
        · show evalVariableG compute_weight (tostore { self with weight := some w, eval_tr := some hy, eval_ts := some hyt }) X = _
          rw [evalVariableG_preset compute_weight (tostore { self with weight := some w, eval_tr := some hy, eval_ts := some hyt }) X w rfl]
          show (X.get? (self.vr.headD 0)).bind _ = _
          rw [hchild, Option.some_bind, hchy, Option.some_bind, hhy,
              Option.some_bind, hts]
          show (scaleW xtest w).bind _ = _
          rw [hhyt, Option.some_bind]
          rfl
        · intro cw
          exact (evalVariableG_preset cw (tostore { self with weight := some w, eval_tr := some hy, eval_ts := some hyt }) X w rfl).trans
            (evalVariableG_preset compute_weight (tostore { self with weight := some w, eval_tr := some hy, eval_ts := some hyt }) X w rfl).symm

/-- C4: for every node whose weight is unset, if the weight solver fails
during eval, eval returns failure (False) with the node unchanged: weight
remains unset and hy remains unset.  Stated for Variable.eval and
Mul.eval, the cited variants. -/
theorem C4_solver_failure_leaves_node_unchanged (self : Node)
    (X : List Node) :
    (∀ child chy ytr mask,
       self.weight = none →
       X.get? (self.vr.headD 0) = some child →
       child.eval_tr = some chy →
       self.ytr = some ytr → self.mask = some mask →
       (compute_weight ytr mask [chy]).1 = none →
       evalVariable self X = some (false, self)) ∧
    (∀ cs hys r ytr mask,
       self.weight = none →
       self.vr.mapM (fun i => X.get? i) = some cs →
       cs.mapM (fun c => c.eval_tr) = some hys →
       cumprod hys = some r →
       self.ytr = some ytr → self.mask = some mask →
       (compute_weight ytr mask [r]).1 = none →
       evalMul self X = some (false, self)) := by
  constructor
  · intro child chy ytr mask hw hchild hchy hytr hmask hcw
    simp only [evalVariable, evalVariableG, hw, hchild, hchy, hytr, hmask,
               Option.bind_eq_bind, Option.some_bind, hcw]
  · intro cs hys r ytr mask hw hcs hhys hr hytr hmask hcw
    simp only [evalMul, evalMulG, fitScalar, hw, hcs, hhys, hr, hytr, hmask,
               Option.bind_eq_bind, Option.some_bind, hcw]

/-- C4 witness: concrete failing fits (a non-finite regressor entry) for a
Variable node and a Mul node, leaving each node unchanged. -/
theorem C4_solver_failure_leaves_node_unchanged_witness :
    evalVariable
      { vr := [0], ytr := some [some 1], mask := some [some 1] }
      [{ vr := [], eval_tr := some [none] }] =
      some (false, { vr := [0], ytr := some [some 1],
                     mask := some [some 1] }) ∧
    evalMul
      { vr := [0, 1], ytr := some [some 1], mask := some [some 1] }
      [{ vr := [], eval_tr := some [some 1] },
       { vr := [], eval_tr := some [none] }] =
      some (false, { vr := [0, 1], ytr := some [some 1],
                     mask := some [some 1] }) :=
  ⟨(C4_solver_failure_leaves_node_unchanged
      { vr := [0], ytr := some [some 1], mask := some [some 1] }
      [{ vr := [], eval_tr := some [none] }]).1
      { vr := [], eval_tr := some [none] } [none] [some 1] [some 1]
      rfl (by with_unfolding_all decide) rfl rfl rfl
      (by with_unfolding_all decide),
   (C4_solver_failure_leaves_node_unchanged
      { vr := [0, 1], ytr := some [some 1], mask := some [some 1] }
      [{ vr := [], eval_tr := some [some 1] },
       { vr := [], eval_tr := some [none] }]).2
      [{ vr := [], eval_tr := some [some 1] },
       { vr := [], eval_tr := some [none] }]
      [[some 1], [none]] [none] [some 1] [some 1]
      rfl (by with_unfolding_all decide) (by with_unfolding_all decide)
      (by with_unfolding_all decide) rfl rfl
      (by with_unfolding_all decide)⟩

/-- C6 counterexample: a Variable node freshly fit (child hy = [1],
ytr = [2], mask = [1]) stores weight = the whole coefficient vector [2]
(the line is `self.weight = w`, not `w[0]`), which is not the scalar 2:
the claim that every scalar-weight variant including Variable stores w[0]
is false. -/
theorem C6_counterexample_variable_stores_vector :
    (evalVariable { vr := [0], ytr := some [some 2], mask := some [some 1] }
        [{ vr := [], eval_tr := some [some 1] }]).map
        (fun p => p.2.weight) = some (some (Weight.vector [2])) ∧
    Weight.vector [2] ≠ Weight.scalar 2 := by
  with_unfolding_all decide

/-- C6 amended: after a successful fresh fit, Mul, Div, the nine unary
transforms (generically in their transform `op`) and If store as weight
the scalar w[0] (first component of the solver's vector); Variable alone
stores the whole length-k vector w returned by compute_weight (numerically
equivalent for k = 1 via numpy broadcasting, but a vector, not a
scalar). -/
theorem C6_amended_weight_shapes (self : Node) (X : List Node) :
    (∀ child chy ytr mask wl,
       self.weight = none →
       X.get? (self.vr.headD 0) = some child →
       child.eval_tr = some chy →
       self.ytr = some ytr → self.mask = some mask →
       (compute_weight ytr mask [chy]).1 = some wl →
       ∀ bb n', evalVariable self X = some (bb, n') →
         n'.weight = some (Weight.vector wl)) ∧
    (∀ cs hys r ytr mask w0 ws,
       self.weight = none →
       self.vr.mapM (fun i => X.get? i) = some cs →
       cs.mapM (fun c => c.eval_tr) = some hys →
       cumprod hys = some r →
       self.ytr = some ytr → self.mask = some mask →
       (compute_weight ytr mask [r]).1 = some (w0 :: ws) →
       ∀ bb n', evalMul self X = some (bb, n') →
         n'.weight = some (Weight.scalar w0)) ∧
    (∀ i0 i1 a b ahy bhy ytr mask w0 ws,
       self.weight = none →
       self.vr.get? 0 = some i0 → self.vr.get? 1 = some i1 →
       X.get? i0 = some a → X.get? i1 = some b →
       a.eval_tr = some ahy → b.eval_tr = some bhy →
       self.ytr = some ytr → self.mask = some mask →
       (compute_weight ytr mask [sigDiv ahy bhy]).1 = some (w0 :: ws) →
       ∀ bb n', evalDiv self X = some (bb, n') →
         n'.weight = some (Weight.scalar w0)) ∧
    (∀ op child chy ytr mask w0 ws,
       self.weight = none →
       X.get? (self.vr.headD 0) = some child →
       child.eval_tr = some chy →
       self.ytr = some ytr → self.mask = some mask →
       (compute_weight ytr mask [op chy]).1 = some (w0 :: ws) →
       ∀ bb n', evalUnary op self X = some (bb, n') →
         n'.weight = some (Weight.scalar w0)) ∧
    (∀ a b c ahy bhy chy ytr mask w0 ws,
       self.weight = none →
       self.vr.mapM (fun i => X.get? i) = some [a, b, c] →
       a.eval_tr = some ahy → b.eval_tr = some bhy →
       c.eval_tr = some chy →
       self.ytr = some ytr → self.mask = some mask →
       (compute_weight ytr mask [if_func ahy bhy chy]).1 = some (w0 :: ws) →
       ∀ bb n', evalIf self X = some (bb, n') →
         n'.weight = some (Weight.scalar w0)) := by
  refine ⟨?_, ?_, ?_, ?_, ?_⟩
  · intro child chy ytr mask wl hw hchild hchy hytr hmask hcw bb n' h
    simp only [evalVariable, evalVariableG, hw, hchild, hchy, hytr, hmask,
               Option.bind_eq_bind, Option.some_bind, hcw] at h
    rw [Option.bind_eq_some] at h
    obtain ⟨hy, hhy, h⟩ := h
    cases hts : child.eval_ts with
    | none =>
        rw [hts] at h
        have hp := Option.some.inj h
        rw [Prod.mk.injEq] at hp
        rw [← hp.2]
    | some xtest =>
        rw [hts, Option.bind_eq_some] at h
        obtain ⟨hyt, hhyt, h⟩ := h
        have hp := Option.some.inj h
        rw [Prod.mk.injEq] at hp
        rw [← hp.2]
  · intro cs hys r ytr mask w0 ws hw hcs hhys hr hytr hmask hcw bb n' h
    simp only [evalMul, evalMulG, fitScalar, hw, hcs, hhys, hr, hytr, hmask,
               Option.bind_eq_bind, Option.some_bind, hcw] at h
    rw [Option.bind_eq_some] at h
    obtain ⟨hy, hhy, h⟩ := h
    rw [Option.bind_eq_some] at h
    obtain ⟨c0, hc0, h⟩ := h
    cases hts : c0.eval_ts with
    | none =>
        rw [hts] at h
        have hp := Option.some.inj h
        rw [Prod.mk.injEq] at hp
        rw [← hp.2]
    | some ts0 =>
        rw [hts, Option.bind_eq_some] at h
        obtain ⟨tss, htss, h⟩ := h
        rw [Option.bind_eq_some] at h
        obtain ⟨rt, hrt, h⟩ := h
        rw [Option.bind_eq_some] at h
        obtain ⟨hyt, hhyt, h⟩ := h
        have hp := Option.some.inj h
        rw [Prod.mk.injEq] at hp
        rw [← hp.2]
  · intro i0 i1 a b ahy bhy ytr mask w0 ws hw hi0 hi1 ha hb hahy hbhy hytr
      hmask hcw bb n' h
    simp only [evalDiv, evalDivG, fitScalar, hw, hi0, hi1, ha, hb, hahy,
               hbhy, hytr, hmask, Option.bind_eq_bind, Option.some_bind,
               hcw] at h
    rw [Option.bind_eq_some] at h
    obtain ⟨hy, hhy, h⟩ := h
    rw [Option.bind_eq_some] at h
    obtain ⟨x0, hx0, h⟩ := h
    cases hts : x0.eval_ts with
    | none =>
        rw [hts] at h
        have hp := Option.some.inj h
        rw [Prod.mk.injEq] at hp
        rw [← hp.2]
    | some ts0 =>
        rw [hts, Option.bind_eq_some] at h
        obtain ⟨ats, hats, h⟩ := h
        rw [Option.bind_eq_some] at h
        obtain ⟨bts, hbts, h⟩ := h
        rw [Option.bind_eq_some] at h
        obtain ⟨hyt, hhyt, h⟩ := h
        have hp := Option.some.inj h
        rw [Prod.mk.injEq] at hp
        rw [← hp.2]
  · intro op child chy ytr mask w0 ws hw hchild hchy hytr hmask hcw bb n' h
    simp only [evalUnary, evalUnaryG, fitScalar, hw, hchild, hchy, hytr,
               hmask, Option.bind_eq_bind, Option.some_bind, hcw] at h
    rw [Option.bind_eq_some] at h
    obtain ⟨hy, hhy, h⟩ := h
    cases hts : child.eval_ts with
    | none =>
        rw [hts] at h
        have hp := Option.some.inj h
        rw [Prod.mk.injEq] at hp
        rw [← hp.2]
    | some ts =>
        rw [hts, Option.bind_eq_some] at h
        obtain ⟨hyt, hhyt, h⟩ := h
        have hp := Option.some.inj h
        rw [Prod.mk.injEq] at hp
        rw [← hp.2]
  · intro a b c ahy bhy chy ytr mask w0 ws hw hcs hahy hbhy hchy hytr hmask
      hcw bb n' h
    simp only [evalIf, evalIfG, fitScalar, hw, hcs, hahy, hbhy, hchy, hytr,
               hmask, Option.bind_eq_bind, Option.some_bind, hcw] at h
    rw [Option.bind_eq_some] at h
    obtain ⟨hy, hhy, h⟩ := h
    cases hts : a.eval_ts with
    | none =>
        rw [hts] at h
        have hp := Option.some.inj h
        rw [Prod.mk.injEq] at hp
        rw [← hp.2]
    | some ats =>
        rw [hts, Option.bind_eq_some] at h
        obtain ⟨bts, hbts, h⟩ := h
        rw [Option.bind_eq_some] at h
        obtain ⟨cts, hcts, h⟩ := h
        rw [Option.bind_eq_some] at h
        obtain ⟨hyt, hhyt, h⟩ := h
        have hp := Option.some.inj h
        rw [Prod.mk.injEq] at hp
        rw [← hp.2]

/-- C6 amended witness: concrete successful fresh fits for all five
conjuncts (Variable stores the vector; Mul, Div, identity-transform unary
and If store the scalar w[0]). -/
theorem C6_amended_weight_shapes_witness :
    ({ vr := [0], weight := some (Weight.vector [2]), eval_tr := some [some 2], ytr := some [some 2], mask := some [some 1] } : Node).weight = some (Weight.vector [2]) ∧
    ({ vr := [0, 1], weight := some (Weight.scalar 1), eval_tr := some [some 2], ytr := some [some 2], mask := some [some 1] } : Node).weight = some (Weight.scalar 1) ∧
    ({ vr := [0, 1], weight := some (Weight.scalar 4), eval_tr := some [some 2], ytr := some [some 2], mask := some [some 1] } : Node).weight = some (Weight.scalar 4) ∧
    ({ vr := [0], weight := some (Weight.scalar 2), eval_tr := some [some 2], ytr := some [some 2], mask := some [some 1] } : Node).weight = some (Weight.scalar 2) ∧
    ({ vr := [0, 1, 2], weight := some (Weight.scalar (2/3)), eval_tr := some [some 2], ytr := some [some 2], mask := some [some 1] } : Node).weight = some (Weight.scalar (2/3)) :=
  ⟨(C6_amended_weight_shapes
      { vr := [0], ytr := some [some 2], mask := some [some 1] }
      [{ vr := [], eval_tr := some [some 1] }]).1
      { vr := [], eval_tr := some [some 1] } [some 1] [some 2] [some 1] [2]
      rfl (by with_unfolding_all decide) rfl rfl rfl
      (by with_unfolding_all decide) true _ (by with_unfolding_all decide),
   (C6_amended_weight_shapes
      { vr := [0, 1], ytr := some [some 2], mask := some [some 1] }
      [{ vr := [], eval_tr := some [some 1] },
       { vr := [], eval_tr := some [some 2] }]).2.1
      [{ vr := [], eval_tr := some [some 1] },
       { vr := [], eval_tr := some [some 2] }]
      [[some 1], [some 2]] [some 2] [some 2] [some 1] 1 []
      rfl (by with_unfolding_all decide) (by with_unfolding_all decide)
      (by with_unfolding_all decide) rfl rfl (by with_unfolding_all decide)
      true _ (by with_unfolding_all decide),
   (C6_amended_weight_shapes
      { vr := [0, 1], ytr := some [some 2], mask := some [some 1] }
      [{ vr := [], eval_tr := some [some 1] },
       { vr := [], eval_tr := some [some 2] }]).2.2.1
      0 1 { vr := [], eval_tr := some [some 1] }
      { vr := [], eval_tr := some [some 2] } [some 1] [some 2]
      [some 2] [some 1] 4 []
      rfl rfl rfl (by with_unfolding_all decide)
      (by with_unfolding_all decide) rfl rfl rfl rfl
      (by with_unfolding_all decide) true _ (by with_unfolding_all decide),
   (C6_amended_weight_shapes
      { vr := [0], ytr := some [some 2], mask := some [some 1] }
      [{ vr := [], eval_tr := some [some 1] }]).2.2.2.1
      (fun s => s) { vr := [], eval_tr := some [some 1] } [some 1]
      [some 2] [some 1] 2 []
      rfl (by with_unfolding_all decide) rfl rfl rfl
      (by with_unfolding_all decide) true _ (by with_unfolding_all decide),
   (C6_amended_weight_shapes
      { vr := [0, 1, 2], ytr := some [some 2], mask := some [some 1] }
      [{ vr := [], eval_tr := some [some 1] },
       { vr := [], eval_tr := some [some 3] },
       { vr := [], eval_tr := some [some 5] }]).2.2.2.2
      { vr := [], eval_tr := some [some 1] }
      { vr := [], eval_tr := some [some 3] }
      { vr := [], eval_tr := some [some 5] }
      [some 1] [some 3] [some 5] [some 2] [some 1] (2/3) []
      rfl (by with_unfolding_all decide) rfl rfl rfl rfl rfl
      (by with_unfolding_all decide) true _ (by with_unfolding_all decide)⟩

/-- C3 witness: a Variable node with preset scalar weight 2 over a child
with hy = [3]: eval succeeds with the weight unchanged. -/
theorem C3_preset_weight_no_solve_witness :
    ({ vr := [0], weight := some (Weight.scalar 2) } : Node).weight =
        some (Weight.scalar 2) ∧
    (true = true ∧
     ({ vr := [0], weight := some (Weight.scalar 2), eval_tr := some [some 6] } : Node).weight = some (Weight.scalar 2)) :=
  ⟨rfl,
   (C3_preset_weight_no_solve { vr := [0], weight := some (Weight.scalar 2) }
      [{ vr := [], eval_tr := some [some 3] }] (Weight.scalar 2) rfl).2.2.1
     true
     { vr := [0], weight := some (Weight.scalar 2), eval_tr := some [some 6] }
     (by with_unfolding_all decide)⟩

/-- Multiplying a signal entrywise by an all-ones mask (at least as long as
the signal) leaves it unchanged. -/
lemma sigMul_replicate_one (s : Sig) : ∀ (n : ℕ), s.length ≤ n →
    sigMul s (List.replicate n (some 1)) = s := by
  induction s with
  | nil => intro n _; simp [sigMul]
  | cons v t ih =>
      intro n hn
      cases n with
      | zero => simp at hn
      | succ m =>
          rw [List.replicate_succ]
          show vmul v (some 1) :: sigMul t (List.replicate m (some 1)) =
            v :: t
          rw [vmul_one, ih m (by simpa using hn)]

lemma foldl_vadd_some (l : List ℚ) : ∀ q : ℚ,
    List.foldl vadd (some q) (l.map some) =
      some (List.foldl (· + ·) q l) := by
  induction l with
  | nil => intro q; rfl
  | cons x t ih =>
      intro q
      show List.foldl vadd (vadd (some q) (some x)) (t.map some) = _
      rw [show vadd (some q) (some x) = some (q + x) from rfl, ih]
      rfl

lemma sigMul_map_some (u : List ℚ) : ∀ (v : List ℚ),
    sigMul (u.map some) (v.map some) =
      (List.zipWith (· * ·) u v).map some := by
  induction u with
  | nil => intro v; simp [sigMul]
  | cons x t ih =>
      intro v
      cases v with
      | nil => simp [sigMul]
      | cons y s =>
          show vmul (some x) (some y) :: sigMul (t.map some) (s.map some) = _
          rw [ih]
          rfl

/-- The dot product of a finite signal with itself, as an exact sum. -/
lemma dotV_self (c : List ℚ) :
    dotV (c.map some) (c.map some) =
      some (List.foldl (· + ·) 0 (List.zipWith (· * ·) c c)) := by
  unfold dotV vsum
  rw [sigMul_map_some, foldl_vadd_some]

lemma foldl_add_sq_le (c : List ℚ) : ∀ q : ℚ,
    q ≤ List.foldl (· + ·) q (List.zipWith (· * ·) c c) := by
  induction c with
  | nil => intro q; exact le_refl q
  | cons x t ih =>
      intro q
      show q ≤ List.foldl (· + ·) (q + x * x) (List.zipWith (· * ·) t t)
      calc q ≤ q + x * x := by nlinarith [mul_self_nonneg x]
        _ ≤ _ := ih (q + x * x)

lemma foldl_add_sq_pos (c : List ℚ) (hnz : ∃ x ∈ c, x ≠ 0) : ∀ q : ℚ,
    q < List.foldl (· + ·) q (List.zipWith (· * ·) c c) := by
  induction c with
  | nil => obtain ⟨x, hx, -⟩ := hnz; simp at hx
  | cons x t ih =>
      intro q
      show q < List.foldl (· + ·) (q + x * x) (List.zipWith (· * ·) t t)
      obtain ⟨y, hy, hy0⟩ := hnz
      rcases List.mem_cons.mp hy with rfl | hyt
      · calc q < q + y * y := by nlinarith [mul_self_pos.mpr hy0]
          _ ≤ _ := foldl_add_sq_le t (q + y * y)
      · calc q ≤ q + x * x := by nlinarith [mul_self_nonneg x]
          _ < _ := ih ⟨y, hyt, hy0⟩ (q + x * x)

/-- Solving a 1-by-1 system: the unique solution of a·w = b. -/
lemma solveSys_one (A : ℕ → ℕ → ℚ) (b : ℕ → ℚ) (hA : A 0 0 ≠ 0) :
    solveSys 1 A b = some [(A 0 0)⁻¹ * b 0] := by
  simp only [solveSys]
  have hdet : Matrix.det (fun i j : Fin 1 => A i j) = A 0 0 := by
    rw [Matrix.det_fin_one]
    rfl
  rw [hdet, if_neg hA]
  congr 1
  rw [List.ofFn_succ, List.ofFn_zero]
  have hcram : Matrix.cramer (fun i j : Fin 1 => A i j)
      (fun j : Fin 1 => b j) 0 = b 0 := by
    rw [Matrix.cramer_apply, Matrix.det_fin_one, Matrix.updateColumn_apply,
        if_pos rfl]
    rfl
  rw [hcram]

/-- Fitting a single regressor equal to the target, under an all-ones mask,
yields the coefficient vector [1] (exact OLS identity fit). -/
lemma compute_weight_identity (c : List ℚ) (hnz : ∃ x ∈ c, x ≠ 0) :
    (compute_weight (c.map some) (List.replicate c.length (some 1))
        [c.map some]).1 = some [1] := by
  set S : ℚ := List.foldl (· + ·) 0 (List.zipWith (· * ·) c c) with hS
  have hSpos : 0 < S := foldl_add_sq_pos c hnz 0
  have hones : sigMul (c.map some) (List.replicate c.length (some 1)) =
      c.map some :=
    sigMul_replicate_one (c.map some) c.length (by rw [List.length_map])
  have hA00 : (gramState (List.replicate c.length (some 1))
      [c.map some]).2 0 0 = some S := by
    rw [gramState_snd _ _ 0 0 (by simp) (by simp), if_pos rfl]
    show dotV (sigMul (c.map some) (List.replicate c.length (some 1)))
        (sigMul (c.map some) (List.replicate c.length (some 1))) = some S
    rw [hones, dotV_self]
  have hbv : bvec (c.map some) [c.map some] =
      [some S] := by
    show [dotV (c.map some) (c.map some)] = [some S]
    rw [dotV_self]
  simp only [compute_weight]
  have hfin : (decide (∀ i < ([c.map some] : List Sig).length,
      ∀ j < ([c.map some] : List Sig).length,
      ((gramState (List.replicate c.length (some 1))
          [c.map some]).2 i j).isSome) &&
      (bvec (c.map some) [c.map some]).all Option.isSome) = true := by
    rw [Bool.and_eq_true, decide_eq_true_eq, List.all_eq_true]
    constructor
    · intro i hi j hj
      have hi0 : i = 0 := by simpa using hi
      have hj0 : j = 0 := by simpa using hj
      subst hi0; subst hj0
      rw [hA00]
      rfl
    · intro x hx
      rw [hbv, List.mem_singleton] at hx
      rw [hx]
      rfl
  have hg00 : gramQ (List.replicate c.length (some 1)) [c.map some] 0 0 =
      S := by
    show ((gramState (List.replicate c.length (some 1))
        [c.map some]).2 0 0).getD 0 = S
    rw [hA00]
    rfl
  have hb0 : bQ (c.map some) [c.map some] 0 = S := by
    show ((bvec (c.map some) [c.map some]).getD 0 (some 0)).getD 0 = S
    rw [hbv]
    rfl
  rw [hfin, if_pos rfl,
      show ([List.map some c] : List Sig).length = 1 from rfl,
      solveSys_one _ _ (by rw [hg00]; exact ne_of_gt hSpos)]
  show some [(gramQ (List.replicate c.length (some 1)) [c.map some] 0 0)⁻¹ *
      bQ (c.map some) [c.map some] 0] = some [1]
  rw [hg00, hb0, inv_mul_cancel₀ (ne_of_gt hSpos)]

/-- C8: for every feature column that is a non-zero finite vector, a
Variable node wrapping it with an all-ones mask and training target ytr
equal exactly to that column fits the coefficient 1 (stored, per
Variable.eval, as the length-1 vector [1]) and produces hy equal to the
column, elementwise. -/
theorem C8_variable_identity_fit (c : List ℚ) (self : Node) (X : List Node)
    (child : Node)
    (hnz : ∃ x ∈ c, x ≠ 0)
    (hw : self.weight = none)
    (hytr : self.ytr = some (c.map some))
    (hmask : self.mask = some (List.replicate c.length (some 1)))
    (hchild : X.get? (self.vr.headD 0) = some child)
    (hchy : child.eval_tr = some (c.map some)) :
    ∃ n', evalVariable self X = some (true, n') ∧
      n'.weight = some (Weight.vector [1]) ∧
      n'.eval_tr = some (c.map some) := by
  have hcw := compute_weight_identity c hnz
  simp only [evalVariable, evalVariableG, hw, hchild, hchy, hytr, hmask,
             Option.bind_eq_bind, Option.some_bind, hcw]
  rw [scaleW_one_vector]
  simp only [Option.some_bind]
  cases hts : child.eval_ts with
  | none => exact ⟨_, rfl, rfl, rfl⟩
  | some xtest =>
      refine ⟨{ vr := self.vr, weight := some (Weight.vector [1]), eval_tr := some (List.map some c), eval_ts := some xtest, ytr := some (List.map some c), mask := some (List.replicate c.length (some 1)), fitness := self.fitness, fitness_vs := self.fitness_vs, position := self.position, nargs := self.nargs }, ?_, rfl, rfl⟩
      show (scaleW xtest (Weight.vector [1])).bind _ = _
      rw [scaleW_one_vector, Option.some_bind]

/-- C8 witness: the column [2, 3]. -/
theorem C8_variable_identity_fit_witness :
    ∃ n', evalVariable
        { vr := [0], ytr := some [some 2, some 3], mask := some [some 1, some 1] }
        [{ vr := [], eval_tr := some [some 2, some 3] }] = some (true, n') ∧
      n'.weight = some (Weight.vector [1]) ∧
      n'.eval_tr = some [some 2, some 3] :=
  C8_variable_identity_fit [2, 3]
    { vr := [0], ytr := some [some 2, some 3], mask := some [some 1, some 1] }
    [{ vr := [], eval_tr := some [some 2, some 3] }]
    { vr := [], eval_tr := some [some 2, some 3] }
    (by with_unfolding_all decide) rfl rfl rfl
    (by with_unfolding_all decide) rfl

end RGP
